import Mathlib

/-
Verification of the request-admission and dispatch layer in
src/src/translator/service.cpp (marian::bergamot::Service).

Shallow embedding conventions:
- ServiceState collects the member state of the Service object
  (requestId_, numWorkers_, capacityBytes_, workers_, batcher_, pcqueue_)
  together with the set of registered-but-unfired completion callbacks
  (field outstanding), the per-request tracker statuses, and ghost event
  counters (preprocessCalls, inferenceCalls, asyncLaunches) that record
  how often the external collaborators were invoked.
- capacityBytes_ is modelled as an Int mutated exactly where the C++
  code mutates it; input.size() is modelled as String.utf8ByteSize.
- External collaborators (TextProcessor.process, Batcher, BatchTranslator,
  Vocab loading) are not in src/.  They are modelled from the spec:
  the Batcher accumulates whole Requests and emits one Batch per Request,
  produceTo moves all pending Batches into the queue, and a translate call
  on a Batch fires the completion callback of the Request exactly once
  (the spec states that a Request resolves its completion signal exactly
  once).  Firing a callback is modelled by consuming its registration
  from the outstanding list.
- The C++ code discards the std::future returned by
  std::async(std::launch::async, queueInBackground); the destructor of that
  temporary future blocks until the task finishes, so by the C++ standard
  the whole unit has run by the time translatePart returns.  The embedding
  therefore applies the prepareRequest/produceTo unit before returning and
  counts the task in asyncLaunches.
-/

namespace Bergamot

/-- Status codes of a RequestTracker, as used by service.cpp. -/
inductive StatusCode
  | UNSET
  | QUEUED
  | SUCCESS
  | REJECTED_MEMORY
  deriving DecidableEq, Repr

/-- The value a tracker future resolves with: Response.EmptyResponse() on the
rejection path, or the completed translation set by the worker. -/
inductive Response
  | emptyResponse
  | completed
  deriving DecidableEq, Repr

/-- A Request as constructed in the prepareRequest lambda of translatePart:
New Request(requestId++, lineNumberBegin, nice = 20, vocabs, input, segments,
sourceRanges, responsePromise).  Segments and ranges come from the external
text processor and carry no information the claims need. -/
structure Request where
  id : Nat
  lineNumberBegin : Int
  nice : Int
  input : String
  inputBytes : Nat
  deriving DecidableEq, Repr

/-- Caller-visible snapshot of a RequestTracker at the time translatePart
returns: status, the resolved future value if any, and the id of the tracked
Request if one was created. -/
structure RequestTracker where
  status : StatusCode
  future : Option Response
  tracked : Option Nat
  deriving DecidableEq, Repr

/-- A Batch in the producer-consumer queue: either work derived from one
Request, or the distinguished poison value pushed by stop(). -/
inductive Batch
  | work (req : Request)
  | poison
  deriving DecidableEq, Repr

/-- State of a Service object plus ghost observation counters. -/
structure ServiceState where
  requestId : Nat
  numWorkers : Nat
  capacityBytes : Int
  workers : Nat
  batcher : List Request
  pcqueue : List Batch
  outstanding : List (Nat × Nat)
  trackers : List (Nat × StatusCode)
  createdRequests : List Request
  preprocessCalls : Nat
  inferenceCalls : Nat
  asyncLaunches : Nat
  deriving DecidableEq, Repr

/-- Service::Service(options): requestId_(0), numWorkers_(cpu-threads),
capacityBytes_(capacity-bytes); with 0 workers no worker thread is created,
with N workers the worker list has N entries. -/
def Service.init (cpuThreads : Nat) (capacity : Int) : ServiceState :=
  { requestId := 0
    numWorkers := cpuThreads
    capacityBytes := capacity
    workers := cpuThreads
    batcher := []
    pcqueue := []
    outstanding := []
    trackers := []
    createdRequests := []
    preprocessCalls := 0
    inferenceCalls := 0
    asyncLaunches := 0 }

/-- Sum of the byte counts of the registered, unfired completion callbacks. -/
def pendingSum (l : List (Nat × Nat)) : Int :=
  (l.map (fun p => (p.2 : Int))).sum

/-- Fire the completion callback registered for request rid, if one is still
registered: return the byte count it adds back and the remaining registry.
Firing consumes the registration, so a callback fires at most once. -/
def fireCallback (rid : Nat) : List (Nat × Nat) → Option Nat × List (Nat × Nat)
  | [] => (none, [])
  | p :: rest =>
    if p.1 = rid then (some p.2, rest)
    else
      let r := fireCallback rid rest
      (r.1, p :: r.2)

/-- Update the status stored for tracker rid (first matching entry). -/
def setTrackerStatus : List (Nat × StatusCode) → Nat → StatusCode → List (Nat × StatusCode)
  | [], _, _ => []
  | p :: rest, rid, st =>
    if p.1 = rid then (rid, st) :: rest
    else p :: setTrackerStatus rest rid st

/-- Read the status stored for tracker rid (UNSET when absent). -/
def lookupStatus : List (Nat × StatusCode) → Nat → StatusCode
  | [], _ => StatusCode.UNSET
  | p :: rest, rid => if p.1 = rid then p.2 else lookupStatus rest rid

/-- The completion callback registered in prepareRequest:
tracker.setStatus(SUCCESS); capacityBytes_ += inputBytes.  It runs when the
Request completes; if no callback is registered for rid nothing happens. -/
def completeRequest (rid : Nat) (s : ServiceState) : ServiceState :=
  match fireCallback rid s.outstanding with
  | (none, _) => s
  | (some b, remaining) =>
    { s with
      capacityBytes := s.capacityBytes + (b : Int)
      outstanding := remaining
      trackers := setTrackerStatus s.trackers rid StatusCode.SUCCESS }

/-- The prepareRequest lambda: text_processor_.process (counted in
preprocessCalls), Request construction with requestId_++ and nice = 20,
callback registration, batcher_.addWholeRequest, tracker status QUEUED. -/
def prepareRequest (input : String) (ln : Int) (inputBytes : Nat)
    (s : ServiceState) : ServiceState :=
  { s with
    requestId := s.requestId + 1
    preprocessCalls := s.preprocessCalls + 1
    createdRequests := s.createdRequests ++
      [{ id := s.requestId, lineNumberBegin := ln, nice := 20,
         input := input, inputBytes := inputBytes }]
    outstanding := (s.requestId, inputBytes) :: s.outstanding
    trackers := (s.requestId, StatusCode.QUEUED) :: s.trackers
    batcher := s.batcher ++
      [{ id := s.requestId, lineNumberBegin := ln, nice := 20,
         input := input, inputBytes := inputBytes }] }

/-- batcher_.produceTo(pcqueue_): move every pending Batch into the queue. -/
def produceTo (s : ServiceState) : ServiceState :=
  { s with
    pcqueue := s.pcqueue ++ s.batcher.map Batch.work
    batcher := [] }

/-- translators_[0].translate(batch) on the synchronous path: one inference
call, after which the Request of the batch completes and its callback runs. -/
def runBatch (s : ServiceState) (req : Request) : ServiceState :=
  completeRequest req.id { s with inferenceCalls := s.inferenceCalls + 1 }

/-- The 0-worker drain loop: while (batcher_ >> batch) translate(batch). -/
def drainBatcher (s : ServiceState) : ServiceState :=
  s.batcher.foldl runBatch { s with batcher := [] }

/-- State after the admission decrement and prepareRequest have run. -/
def acceptedState (input : String) (ln : Int) (s : ServiceState) : ServiceState :=
  prepareRequest input ln input.utf8ByteSize
    { s with capacityBytes := s.capacityBytes - (input.utf8ByteSize : Int) }

/-- The numWorkers_ > 0 path: the queueInBackground unit (prepareRequest then
produceTo), counted as one async launch.  The discarded std::async future
blocks until this unit finishes, so its effects are part of the returned
state. -/
def asyncPath (input : String) (ln : Int) (s : ServiceState) : ServiceState :=
  produceTo
    { acceptedState input ln s with
      asyncLaunches := (acceptedState input ln s).asyncLaunches + 1 }

/-- The numWorkers_ == 0 path: prepareRequest then the synchronous drain. -/
def syncPath (input : String) (ln : Int) (s : ServiceState) : ServiceState :=
  drainBatcher (acceptedState input ln s)

/-- Snapshot of the tracker for request rid as the caller sees it when
translatePart returns. -/
def trackerView (s : ServiceState) (rid : Nat) : RequestTracker :=
  { status := lookupStatus s.trackers rid
    future :=
      if lookupStatus s.trackers rid = StatusCode.SUCCESS then
        some Response.completed
      else none
    tracked := some rid }

/-- Service::translatePart: admission check against capacityBytes_, rejection
with REJECTED_MEMORY and an immediately resolved empty Response, or acceptance
with the capacity decrement followed by the worker-count dependent dispatch. -/
def translatePart (input : String) (ln : Int) (s : ServiceState) :
    RequestTracker × ServiceState :=
  if (input.utf8ByteSize : Int) > s.capacityBytes then
    ({ status := StatusCode.REJECTED_MEMORY,
       future := some Response.emptyResponse,
       tracked := none }, s)
  else if 0 < s.numWorkers then
    (trackerView (asyncPath input ln s) s.requestId, asyncPath input ln s)
  else
    (trackerView (syncPath input ln s) s.requestId, syncPath input ln s)

/-- Service::translate: translatePart with lineNumberBegin = 0; the returned
future is the one held by the tracker. -/
def translate (input : String) (s : ServiceState) :
    RequestTracker × ServiceState :=
  translatePart input 0 s

/-- Service::translateWithCopy: return translate(std::move(input)). -/
def translateWithCopy (input : String) (s : ServiceState) :
    RequestTracker × ServiceState :=
  translate input s

/-- Service::stop(): one poison Batch per worker pushed into the queue, all
workers joined, then workers_.clear(). -/
def stop (s : ServiceState) : ServiceState :=
  { s with
    pcqueue := s.pcqueue ++ List.replicate s.workers Batch.poison
    workers := 0 }

/-- The destructor: Service::~Service() { stop(); } -/
def destroy (s : ServiceState) : ServiceState :=
  stop s

/-- Operations a client or a worker can perform on a Service after
construction: submit a part, complete an accepted request (a worker finishing
its inference and the Request firing the registered callback), or stop. -/
inductive Op
  | submit (input : String) (ln : Int)
  | complete (rid : Nat)
  | stopService
  deriving Repr

/-- One step of the Service state machine. -/
def applyOp (s : ServiceState) : Op → ServiceState
  | Op.submit input ln => (translatePart input ln s).2
  | Op.complete rid => completeRequest rid s
  | Op.stopService => stop s

/-- Execute a sequence of operations from a given state. -/
def run (s : ServiceState) (ops : List Op) : ServiceState :=
  ops.foldl applyOp s

/-- Ids of the Requests constructed so far, in construction order. -/
def issuedIds (s : ServiceState) : List Nat :=
  s.createdRequests.map Request.id

/-- Lookup in the vmap of loadVocabularies (std::unordered_map emulated as an
association list; a vocabulary object is identified by the loop index i at
which New Vocab(options, i) created it). -/
def vocabLookup : List (String × Nat) → String → Option Nat
  | [], _ => none
  | p :: rest, f => if p.1 = f then some p.2 else vocabLookup rest f

/-- The loop of loadVocabularies: for each file name, reuse the vocabulary
already loaded for that name, or load a new one (counted in the last
component) identified by the current index. -/
def loadVocabAux : List String → Nat → List (String × Nat) →
    List Nat × List (String × Nat) × Nat
  | [], _, vmap => ([], vmap, 0)
  | f :: rest, i, vmap =>
    match vocabLookup vmap f with
    | some v =>
      let r := loadVocabAux rest (i + 1) vmap
      (v :: r.1, r.2.1, r.2.2)
    | none =>
      let r := loadVocabAux rest (i + 1) ((f, i) :: vmap)
      (i :: r.1, r.2.1, r.2.2 + 1)

/-- loadVocabularies: ABORT_IF(vfiles.size() < 2) modelled as none; otherwise
the ordered list of vocabulary objects (identified by creation index) and the
number of load calls performed. -/
def loadVocabularies (vfiles : List String) : Option (List Nat × Nat) :=
  if vfiles.length < 2 then none
  else
    some ((loadVocabAux vfiles 0 []).1, (loadVocabAux vfiles 0 []).2.2)

/-- Well-formedness of the vmap of loadVocabularies at loop index i: every
stored creation index is below i, and two entries share a creation index
exactly when they share a file name. -/
def GoodMap (i : Nat) (vmap : List (String × Nat)) : Prop :=
  (∀ p ∈ vmap, p.2 < i) ∧
  (∀ p ∈ vmap, ∀ q ∈ vmap, (p.1 = q.1 ↔ p.2 = q.2))

/-- Capacity accounting: the remaining budget plus the bytes held by the
registered completion callbacks equals the configured budget. -/
def CapAcct (cfg : Int) (s : ServiceState) : Prop :=
  s.capacityBytes + pendingSum s.outstanding = cfg

/-- The remaining budget never goes negative. -/
def CapNonneg (s : ServiceState) : Prop :=
  0 ≤ s.capacityBytes

/-- Request-id allocation invariant: every issued id is below the counter, and
the issued ids are strictly increasing in issuance order. -/
def IdInv (s : ServiceState) : Prop :=
  (∀ i ∈ issuedIds s, i < s.requestId) ∧ List.Pairwise (· < ·) (issuedIds s)

/-- A one-worker service with a 10-byte budget (for concrete instances). -/
def exampleService : ServiceState :=
  Service.init 1 10

/-- A zero-worker service with a 10-byte budget (for concrete instances). -/
def exampleServiceZero : ServiceState :=
  Service.init 0 10

/-- A service with one accepted 4-byte request (id 7) still in flight. -/
def exampleServiceBusy : ServiceState :=
  { Service.init 1 10 with capacityBytes := 6, outstanding := [(7, 4)] }

/-- The Request that translate constructs for the 2-byte input "hi" on a
fresh service (used by concrete instances). -/
def exampleRequest : Request :=
  { id := 0, lineNumberBegin := 0, nice := 20, input := "hi", inputBytes := 2 }

/-- pendingSum distributes over cons. -/
theorem pendingSum_cons (p : Nat × Nat) (l : List (Nat × Nat)) :
    pendingSum (p :: l) = (p.2 : Int) + pendingSum l := by
  simp [pendingSum]

/-- pendingSum of the empty registry is zero. -/
theorem pendingSum_nil : pendingSum [] = 0 := by
  simp [pendingSum]

/-- pendingSum is nonnegative. -/
theorem pendingSum_nonneg (l : List (Nat × Nat)) : 0 ≤ pendingSum l := by
  induction l with
  | nil => simp [pendingSum]
  | cons p t ih =>
    rw [pendingSum_cons]
    have := Int.natCast_nonneg p.2
    omega

/-- Firing a callback conserves the byte accounting: the returned byte count
plus the remaining registry sums to the original registry. -/
theorem fireCallback_sum (rid : Nat) :
    ∀ (l : List (Nat × Nat)) (b : Nat) (rem : List (Nat × Nat)),
      fireCallback rid l = (some b, rem) →
      (b : Int) + pendingSum rem = pendingSum l := by
  intro l
  induction l with
  | nil => intro b rem h; simp [fireCallback] at h
  | cons p t ih =>
    intro b rem h
    by_cases hp : p.1 = rid
    · rw [fireCallback, if_pos hp] at h
      obtain ⟨hb, hrem⟩ := Prod.mk.injEq .. ▸ h
      obtain rfl : p.2 = b := Option.some.inj hb
      subst hrem
      rw [pendingSum_cons]
    · rw [fireCallback, if_neg hp] at h
      simp only [Prod.mk.injEq] at h
      obtain ⟨h1, h2⟩ := h
      have hft : fireCallback rid t = (some b, (fireCallback rid t).2) := by
        rw [← h1]
      have := ih b (fireCallback rid t).2 hft
      subst h2
      rw [pendingSum_cons, pendingSum_cons]
      omega

/-- When no callback for rid is registered, firing is the identity. -/
theorem fireCallback_not_mem (rid : Nat) :
    ∀ l : List (Nat × Nat), (∀ p ∈ l, p.1 ≠ rid) → fireCallback rid l = (none, l) := by
  intro l
  induction l with
  | nil => intro _; rfl
  | cons p t ih =>
    intro h
    have hp : p.1 ≠ rid := h p (List.mem_cons_self p t)
    have ht := ih (fun q hq => h q (List.mem_cons_of_mem p hq))
    rw [fireCallback, if_neg hp, ht]

/-- Preservation of a predicate along List.foldl. -/
theorem foldl_preserve {α : Type} {P : ServiceState → Prop}
    {f : ServiceState → α → ServiceState}
    (hf : ∀ s a, P s → P (f s a)) :
    ∀ (l : List α) (s : ServiceState), P s → P (l.foldl f s) := by
  intro l
  induction l with
  | nil => intro s hs; simpa using hs
  | cons a t ih =>
    intro s hs
    rw [List.foldl_cons]
    exact ih (f s a) (hf s a hs)

/-- completeRequest only touches capacityBytes, outstanding and trackers. -/
theorem completeRequest_ghost (rid : Nat) (s : ServiceState) :
    (completeRequest rid s).createdRequests = s.createdRequests ∧
    (completeRequest rid s).requestId = s.requestId ∧
    (completeRequest rid s).numWorkers = s.numWorkers ∧
    (completeRequest rid s).batcher = s.batcher := by
  unfold completeRequest
  cases hfc : fireCallback rid s.outstanding with
  | mk o rem => cases o <;> simp

/-- On rejection translatePart returns the rejection tracker and the state
unchanged. -/
theorem translatePart_rejected_eq (input : String) (ln : Int) (s : ServiceState)
    (h : (input.utf8ByteSize : Int) > s.capacityBytes) :
    translatePart input ln s =
      ({ status := StatusCode.REJECTED_MEMORY,
         future := some Response.emptyResponse,
         tracked := none }, s) := by
  unfold translatePart
  rw [if_pos h]

/-- On acceptance with at least one worker, translatePart takes the async
path. -/
theorem translatePart_accept_async (input : String) (ln : Int) (s : ServiceState)
    (hrej : ¬ (input.utf8ByteSize : Int) > s.capacityBytes)
    (hw : 0 < s.numWorkers) :
    translatePart input ln s =
      (trackerView (asyncPath input ln s) s.requestId, asyncPath input ln s) := by
  unfold translatePart
  rw [if_neg hrej, if_pos hw]

/-- On acceptance with zero workers, translatePart takes the sync path. -/
theorem translatePart_accept_sync (input : String) (ln : Int) (s : ServiceState)
    (hrej : ¬ (input.utf8ByteSize : Int) > s.capacityBytes)
    (hw : ¬ 0 < s.numWorkers) :
    translatePart input ln s =
      (trackerView (syncPath input ln s) s.requestId, syncPath input ln s) := by
  unfold translatePart
  rw [if_neg hrej, if_neg hw]

/-- The capacity accounting survives a completion callback. -/
theorem capAcct_completeRequest {cfg : Int} {s : ServiceState} (rid : Nat)
    (h : CapAcct cfg s) : CapAcct cfg (completeRequest rid s) := by
  unfold completeRequest
  cases hfc : fireCallback rid s.outstanding with
  | mk o rem =>
    cases o with
    | none => exact h
    | some b =>
      have hsum := fireCallback_sum rid s.outstanding b rem hfc
      unfold CapAcct at h ⊢
      simp only
      omega

/-- The capacity accounting survives the admission decrement plus callback
registration. -/
theorem capAcct_acceptedState {cfg : Int} {s : ServiceState}
    (input : String) (ln : Int) (h : CapAcct cfg s) :
    CapAcct cfg (acceptedState input ln s) := by
  unfold CapAcct at h ⊢
  unfold acceptedState prepareRequest
  simp only [pendingSum_cons]
  omega

/-- The capacity accounting ignores the queue hand-off. -/
theorem capAcct_produceTo {cfg : Int} {s : ServiceState}
    (h : CapAcct cfg s) : CapAcct cfg (produceTo s) := by
  unfold CapAcct at h ⊢
  unfold produceTo
  simpa using h

/-- The capacity accounting survives one synchronous batch translation. -/
theorem capAcct_runBatch {cfg : Int} {s : ServiceState} (req : Request)
    (h : CapAcct cfg s) : CapAcct cfg (runBatch s req) := by
  unfold runBatch
  apply capAcct_completeRequest
  unfold CapAcct at h ⊢
  simpa using h

/-- The capacity accounting survives the synchronous drain loop. -/
theorem capAcct_drainBatcher {cfg : Int} {s : ServiceState}
    (h : CapAcct cfg s) : CapAcct cfg (drainBatcher s) := by
  unfold drainBatcher
  refine foldl_preserve (fun u r hu => capAcct_runBatch r hu) s.batcher _ ?_
  unfold CapAcct at h ⊢
  simpa using h

/-- The capacity accounting survives a whole translatePart call. -/
theorem capAcct_translatePart {cfg : Int} {s : ServiceState}
    (input : String) (ln : Int) (h : CapAcct cfg s) :
    CapAcct cfg (translatePart input ln s).2 := by
  by_cases hrej : (input.utf8ByteSize : Int) > s.capacityBytes
  · rw [translatePart_rejected_eq input ln s hrej]
    exact h
  · by_cases hw : 0 < s.numWorkers
    · rw [translatePart_accept_async input ln s hrej hw]
      unfold asyncPath
      apply capAcct_produceTo
      have h1 := capAcct_acceptedState input ln h
      unfold CapAcct at h1 ⊢
      simpa using h1
    · rw [translatePart_accept_sync input ln s hrej hw]
      exact capAcct_drainBatcher (capAcct_acceptedState input ln h)

/-- The capacity accounting survives stop. -/
theorem capAcct_stop {cfg : Int} {s : ServiceState}
    (h : CapAcct cfg s) : CapAcct cfg (stop s) := by
  unfold CapAcct at h ⊢
  unfold stop
  simpa using h

/-- The capacity accounting is preserved by every operation. -/
theorem capAcct_applyOp {cfg : Int} {s : ServiceState} (op : Op)
    (h : CapAcct cfg s) : CapAcct cfg (applyOp s op) := by
  cases op with
  | submit input ln => exact capAcct_translatePart input ln h
  | complete rid => exact capAcct_completeRequest rid h
  | stopService => exact capAcct_stop h

/-- The capacity accounting is preserved by every run. -/
theorem capAcct_run {cfg : Int} (ops : List Op) (s : ServiceState)
    (h : CapAcct cfg s) : CapAcct cfg (run s ops) :=
  foldl_preserve (fun _ op hu => capAcct_applyOp op hu) ops s h

/-- Nonnegativity of the budget survives a completion callback. -/
theorem capNonneg_completeRequest {s : ServiceState} (rid : Nat)
    (h : CapNonneg s) : CapNonneg (completeRequest rid s) := by
  unfold completeRequest
  cases hfc : fireCallback rid s.outstanding with
  | mk o rem =>
    cases o with
    | none => exact h
    | some b =>
      unfold CapNonneg at h ⊢
      simp only
      have := Int.natCast_nonneg b
      omega

/-- Nonnegativity survives one synchronous batch translation. -/
theorem capNonneg_runBatch {s : ServiceState} (req : Request)
    (h : CapNonneg s) : CapNonneg (runBatch s req) := by
  unfold runBatch
  apply capNonneg_completeRequest
  unfold CapNonneg at h ⊢
  simpa using h

/-- Nonnegativity survives the synchronous drain loop. -/
theorem capNonneg_drainBatcher {s : ServiceState}
    (h : CapNonneg s) : CapNonneg (drainBatcher s) := by
  unfold drainBatcher
  refine foldl_preserve (fun u r hu => capNonneg_runBatch r hu) s.batcher _ ?_
  unfold CapNonneg at h ⊢
  simpa using h

/-- Nonnegativity survives acceptance: the check-then-decrement only subtracts
inputBytes when inputBytes fits in the current budget. -/
theorem capNonneg_acceptedState {s : ServiceState} (input : String) (ln : Int)
    (hrej : ¬ (input.utf8ByteSize : Int) > s.capacityBytes) :
    CapNonneg (acceptedState input ln s) := by
  unfold CapNonneg acceptedState prepareRequest
  simp only
  omega

/-- Nonnegativity survives a whole translatePart call. -/
theorem capNonneg_translatePart {s : ServiceState}
    (input : String) (ln : Int) (h : CapNonneg s) :
    CapNonneg (translatePart input ln s).2 := by
  by_cases hrej : (input.utf8ByteSize : Int) > s.capacityBytes
  · rw [translatePart_rejected_eq input ln s hrej]
    exact h
  · by_cases hw : 0 < s.numWorkers
    · rw [translatePart_accept_async input ln s hrej hw]
      unfold asyncPath produceTo
      have h1 := capNonneg_acceptedState input ln hrej
      unfold CapNonneg at h1 ⊢
      simpa using h1
    · rw [translatePart_accept_sync input ln s hrej hw]
      exact capNonneg_drainBatcher (capNonneg_acceptedState input ln hrej)

/-- Nonnegativity is preserved by every operation. -/
theorem capNonneg_applyOp {s : ServiceState} (op : Op)
    (h : CapNonneg s) : CapNonneg (applyOp s op) := by
  cases op with
  | submit input ln => exact capNonneg_translatePart input ln h
  | complete rid => exact capNonneg_completeRequest rid h
  | stopService =>
    show CapNonneg (stop s)
    unfold CapNonneg at h ⊢
    unfold stop
    simpa using h

/-- Nonnegativity is preserved by every run. -/
theorem capNonneg_run (ops : List Op) (s : ServiceState)
    (h : CapNonneg s) : CapNonneg (run s ops) :=
  foldl_preserve (fun _ op hu => capNonneg_applyOp op hu) ops s h

/-- acceptedState issues exactly one new id: the current counter value. -/
theorem issuedIds_acceptedState (input : String) (ln : Int) (s : ServiceState) :
    issuedIds (acceptedState input ln s) = issuedIds s ++ [s.requestId] := by
  unfold issuedIds acceptedState prepareRequest
  simp

/-- acceptedState advances the id counter by one. -/
theorem requestId_acceptedState (input : String) (ln : Int) (s : ServiceState) :
    (acceptedState input ln s).requestId = s.requestId + 1 := by
  unfold acceptedState prepareRequest
  simp

/-- The id invariant survives a completion callback. -/
theorem idInv_completeRequest {s : ServiceState} (rid : Nat)
    (h : IdInv s) : IdInv (completeRequest rid s) := by
  obtain ⟨h1, h2, h3, h4⟩ := completeRequest_ghost rid s
  unfold IdInv issuedIds at h ⊢
  rw [h1, h2]
  exact h

/-- The id invariant survives one synchronous batch translation. -/
theorem idInv_runBatch {s : ServiceState} (req : Request)
    (h : IdInv s) : IdInv (runBatch s req) := by
  unfold runBatch
  apply idInv_completeRequest
  unfold IdInv issuedIds at h ⊢
  simpa using h

/-- The id invariant survives the synchronous drain loop. -/
theorem idInv_drainBatcher {s : ServiceState}
    (h : IdInv s) : IdInv (drainBatcher s) := by
  unfold drainBatcher
  refine foldl_preserve (fun u r hu => idInv_runBatch r hu) s.batcher _ ?_
  unfold IdInv issuedIds at h ⊢
  simpa using h

/-- The id invariant survives acceptance: the fresh id equals the old counter,
which strictly exceeds every previously issued id. -/
theorem idInv_acceptedState {s : ServiceState} (input : String) (ln : Int)
    (h : IdInv s) : IdInv (acceptedState input ln s) := by
  obtain ⟨hb, hp⟩ := h
  constructor
  · intro i hi
    rw [issuedIds_acceptedState] at hi
    rw [requestId_acceptedState]
    rcases List.mem_append.mp hi with h1 | h1
    · exact Nat.lt_succ_of_lt (hb i h1)
    · simp only [List.mem_singleton] at h1
      subst h1
      exact Nat.lt_succ_self _
  · rw [issuedIds_acceptedState]
    refine List.pairwise_append.mpr ⟨hp, by simp, ?_⟩
    intro a ha b hbm
    simp only [List.mem_singleton] at hbm
    subst hbm
    exact hb a ha

/-- The id invariant survives a whole translatePart call. -/
theorem idInv_translatePart {s : ServiceState} (input : String) (ln : Int)
    (h : IdInv s) : IdInv (translatePart input ln s).2 := by
  by_cases hrej : (input.utf8ByteSize : Int) > s.capacityBytes
  · rw [translatePart_rejected_eq input ln s hrej]
    exact h
  · by_cases hw : 0 < s.numWorkers
    · rw [translatePart_accept_async input ln s hrej hw]
      have h1 := idInv_acceptedState input ln h
      unfold asyncPath produceTo
      unfold IdInv issuedIds at h1 ⊢
      simpa using h1
    · rw [translatePart_accept_sync input ln s hrej hw]
      exact idInv_drainBatcher (idInv_acceptedState input ln h)

/-- The id invariant is preserved by every operation. -/
theorem idInv_applyOp {s : ServiceState} (op : Op)
    (h : IdInv s) : IdInv (applyOp s op) := by
  cases op with
  | submit input ln => exact idInv_translatePart input ln h
  | complete rid => exact idInv_completeRequest rid h
  | stopService =>
    show IdInv (stop s)
    unfold IdInv issuedIds at h ⊢
    unfold stop
    simpa using h

/-- The id invariant is preserved by every run. -/
theorem idInv_run (ops : List Op) (s : ServiceState)
    (h : IdInv s) : IdInv (run s ops) :=
  foldl_preserve (fun _ op hu => idInv_applyOp op hu) ops s h

/-- A successful vmap lookup comes from an entry of the vmap. -/
theorem vocabLookup_mem : ∀ (vmap : List (String × Nat)) (f : String) (v : Nat),
    vocabLookup vmap f = some v → (f, v) ∈ vmap := by
  intro vmap
  induction vmap with
  | nil => intro f v h; simp [vocabLookup] at h
  | cons p rest ih =>
    intro f v h
    obtain ⟨a, b⟩ := p
    by_cases hp : a = f
    · rw [vocabLookup, if_pos hp] at h
      have hb : b = v := Option.some.inj h
      subst hp; subst hb
      exact List.mem_cons_self _ _
    · rw [vocabLookup, if_neg hp] at h
      exact List.mem_cons_of_mem _ (ih f v h)

/-- A failed vmap lookup means no entry carries that file name. -/
theorem vocabLookup_none : ∀ (vmap : List (String × Nat)) (f : String),
    vocabLookup vmap f = none → ∀ p ∈ vmap, p.1 ≠ f := by
  intro vmap
  induction vmap with
  | nil => intro f _ p hp; simp at hp
  | cons q rest ih =>
    intro f h p hp
    by_cases hq : q.1 = f
    · rw [vocabLookup, if_pos hq] at h
      exact absurd h (by simp)
    · rw [vocabLookup, if_neg hq] at h
      rcases List.mem_cons.mp hp with rfl | hp
      · exact hq
      · exact ih f h p hp

/-- A failed vmap lookup is exactly absence from the key list. -/
theorem vocabLookup_none_iff (vmap : List (String × Nat)) (f : String) :
    vocabLookup vmap f = none ↔ f ∉ vmap.map Prod.fst := by
  induction vmap with
  | nil => simp [vocabLookup]
  | cons p rest ih =>
    by_cases hp : p.1 = f
    · simp [vocabLookup, hp]
    · simp only [vocabLookup, if_neg hp, List.map_cons, List.mem_cons, ih]
      constructor
      · intro h hc
        rcases hc with hc | hc
        · exact hp hc.symm
        · exact h hc
      · intro h hc
        exact h (Or.inr hc)

/-- The produced vocabulary list has one entry per input file name. -/
theorem loadVocabAux_length :
    ∀ (l : List String) (i : Nat) (vmap : List (String × Nat)),
      (loadVocabAux l i vmap).1.length = l.length := by
  intro l
  induction l with
  | nil => intro i vmap; simp [loadVocabAux]
  | cons f rest ih =>
    intro i vmap
    cases hl : vocabLookup vmap f with
    | some v => simp [loadVocabAux, hl, ih]
    | none => simp [loadVocabAux, hl, ih]

/-- vmap well-formedness is monotone in the loop index. -/
theorem goodMap_mono {i : Nat} {vmap : List (String × Nat)}
    (hg : GoodMap i vmap) : GoodMap (i + 1) vmap :=
  ⟨fun p hp => Nat.lt_succ_of_lt (hg.1 p hp), hg.2⟩

/-- Inserting a not-yet-seen name at the current index keeps the vmap
well-formed for the next index. -/
theorem goodMap_extend {i : Nat} {vmap : List (String × Nat)} {f : String}
    (hg : GoodMap i vmap) (hl : vocabLookup vmap f = none) :
    GoodMap (i + 1) ((f, i) :: vmap) := by
  obtain ⟨hlt, hiff⟩ := hg
  have hnf : ∀ p ∈ vmap, p.1 ≠ f := vocabLookup_none vmap f hl
  constructor
  · intro p hp
    rcases List.mem_cons.mp hp with rfl | hp
    · exact Nat.lt_succ_self i
    · exact Nat.lt_succ_of_lt (hlt p hp)
  · intro p hp q hq
    rcases List.mem_cons.mp hp with rfl | hp <;>
      rcases List.mem_cons.mp hq with rfl | hq
    · simp
    · constructor
      · intro he
        exact absurd he.symm (hnf q hq)
      · intro he
        exfalso
        have h1 := hlt q hq
        simp only at he
        omega
    · constructor
      · intro he
        exact absurd he (hnf p hp)
      · intro he
        exfalso
        have h1 := hlt p hp
        simp only at he
        omega
    · exact hiff p hp q hq

/-- Sharing discipline of the vocabulary loader: pairing the input names with
the produced objects (and taking the vmap entries as already-decided pairs),
two pairs carry the same name exactly when they carry the same object. -/
theorem loadVocabAux_share :
    ∀ (l : List String) (i : Nat) (vmap : List (String × Nat)),
      GoodMap i vmap →
      ∀ p q, (p ∈ l.zip (loadVocabAux l i vmap).1 ∨ p ∈ vmap) →
             (q ∈ l.zip (loadVocabAux l i vmap).1 ∨ q ∈ vmap) →
             (p.1 = q.1 ↔ p.2 = q.2) := by
  intro l
  induction l with
  | nil =>
    intro i vmap hg p q hp hq
    simp only [loadVocabAux, List.zip_nil_left, List.not_mem_nil, false_or] at hp hq
    exact hg.2 p hp q hq
  | cons f rest ih =>
    intro i vmap hg p q hp hq
    cases hl : vocabLookup vmap f with
    | some v =>
      have hmem : (f, v) ∈ vmap := vocabLookup_mem vmap f v hl
      have hg1 : GoodMap (i + 1) vmap := goodMap_mono hg
      simp only [loadVocabAux, hl, List.zip_cons_cons, List.mem_cons] at hp hq
      refine ih (i + 1) vmap hg1 p q ?_ ?_
      · rcases hp with (hp | hp) | hp
        · right; rw [hp]; exact hmem
        · left; exact hp
        · right; exact hp
      · rcases hq with (hq | hq) | hq
        · right; rw [hq]; exact hmem
        · left; exact hq
        · right; exact hq
    | none =>
      have hg1 : GoodMap (i + 1) ((f, i) :: vmap) := goodMap_extend hg hl
      simp only [loadVocabAux, hl, List.zip_cons_cons, List.mem_cons] at hp hq
      refine ih (i + 1) ((f, i) :: vmap) hg1 p q ?_ ?_
      · rcases hp with (hp | hp) | hp
        · right; rw [hp]; exact List.mem_cons_self _ _
        · left; exact hp
        · right; exact List.mem_cons_of_mem _ hp
      · rcases hq with (hq | hq) | hq
        · right; rw [hq]; exact List.mem_cons_self _ _
        · left; exact hq
        · right; exact List.mem_cons_of_mem _ hq

/-- The loader performs exactly one load per input name not already in the
vmap, counted without multiplicity. -/
theorem loadVocabAux_loads [DecidableEq String] :
    ∀ (l : List String) (i : Nat) (vmap : List (String × Nat)),
      (loadVocabAux l i vmap).2.2
        = (l.toFinset \ (vmap.map Prod.fst).toFinset).card := by
  intro l
  induction l with
  | nil => intro i vmap; simp [loadVocabAux]
  | cons f rest ih =>
    intro i vmap
    cases hl : vocabLookup vmap f with
    | some v =>
      have hfK : f ∈ (vmap.map Prod.fst).toFinset := by
        refine List.mem_toFinset.mpr ?_
        exact List.mem_map.mpr ⟨(f, v), vocabLookup_mem vmap f v hl, rfl⟩
      simp only [loadVocabAux, hl]
      rw [ih (i + 1) vmap, List.toFinset_cons,
        Finset.insert_sdiff_of_mem _ hfK]
    | none =>
      have hfK : f ∉ (vmap.map Prod.fst).toFinset := by
        intro hc
        exact (vocabLookup_none_iff vmap f).mp hl (List.mem_toFinset.mp hc)
      simp only [loadVocabAux, hl]
      rw [ih (i + 1) ((f, i) :: vmap)]
      simp only [List.map_cons, List.toFinset_cons]
      rw [Finset.sdiff_insert, Finset.insert_sdiff_of_not_mem _ hfK]
      by_cases hfS : f ∈ rest.toFinset \ (vmap.map Prod.fst).toFinset
      · rw [Finset.insert_eq_self.mpr hfS]
        have hpos : 0 < (rest.toFinset \ (vmap.map Prod.fst).toFinset).card :=
          Finset.card_pos.mpr ⟨f, hfS⟩
        rw [Finset.card_erase_of_mem hfS]
        omega
      · rw [Finset.erase_eq_of_not_mem hfS,
          Finset.card_insert_of_not_mem hfS]

/-- The synchronous drain never constructs Requests. -/
theorem drainBatcher_createdRequests (s : ServiceState) :
    (drainBatcher s).createdRequests = s.createdRequests := by
  unfold drainBatcher
  refine foldl_preserve (P := fun u => u.createdRequests = s.createdRequests)
    (fun u r hu => ?_) s.batcher _ rfl
  show (runBatch u r).createdRequests = s.createdRequests
  unfold runBatch
  rw [(completeRequest_ghost r.id _).1]
  simpa using hu

/-- The async path appends exactly the newly constructed Request. -/
theorem createdRequests_asyncPath (input : String) (ln : Int) (s : ServiceState) :
    (asyncPath input ln s).createdRequests
      = s.createdRequests ++
        [{ id := s.requestId, lineNumberBegin := ln, nice := 20,
           input := input, inputBytes := input.utf8ByteSize }] := by
  unfold asyncPath produceTo acceptedState prepareRequest
  simp

/-- The sync path appends exactly the newly constructed Request. -/
theorem createdRequests_syncPath (input : String) (ln : Int) (s : ServiceState) :
    (syncPath input ln s).createdRequests
      = s.createdRequests ++
        [{ id := s.requestId, lineNumberBegin := ln, nice := 20,
           input := input, inputBytes := input.utf8ByteSize }] := by
  unfold syncPath
  rw [drainBatcher_createdRequests]
  unfold acceptedState prepareRequest
  simp

/-- C1: for every submission whose input size in bytes strictly exceeds the
current capacityBytes, translatePart sets the tracker status to
REJECTED_MEMORY, resolves the future immediately with the empty Response,
and returns the service state unchanged: no Request is created, no text
preprocessing and no inference is invoked, and capacityBytes is untouched. -/
theorem rejection_no_side_effects (input : String) (ln : Int) (s : ServiceState)
    (h : (input.utf8ByteSize : Int) > s.capacityBytes) :
    (translatePart input ln s).1.status = StatusCode.REJECTED_MEMORY
  ∧ (translatePart input ln s).1.future = some Response.emptyResponse
  ∧ (translatePart input ln s).1.tracked = none
  ∧ (translatePart input ln s).2 = s := by
  rw [translatePart_rejected_eq input ln s h]
  exact ⟨rfl, rfl, rfl, rfl⟩

/-- Concrete instance of C1: a 5-byte input against a 3-byte budget. -/
theorem rejection_no_side_effects_witness :
    (translatePart "hello" 0 (Service.init 1 3)).1.status = StatusCode.REJECTED_MEMORY
  ∧ (translatePart "hello" 0 (Service.init 1 3)).1.future = some Response.emptyResponse
  ∧ (translatePart "hello" 0 (Service.init 1 3)).1.tracked = none
  ∧ (translatePart "hello" 0 (Service.init 1 3)).2 = Service.init 1 3 :=
  rejection_no_side_effects "hello" 0 (Service.init 1 3) (by decide)

/-- C3: starting from a Service constructed with a nonnegative budget cfg,
after any sequence of submissions, completions and stops the remaining
capacityBytes satisfies 0 less-equal capacityBytes less-equal cfg. -/
theorem capacity_bounds_invariant (cfg : Int) (n : Nat) (ops : List Op)
    (hcfg : 0 ≤ cfg) :
    0 ≤ (run (Service.init n cfg) ops).capacityBytes
  ∧ (run (Service.init n cfg) ops).capacityBytes ≤ cfg := by
  have hacct : CapAcct cfg (run (Service.init n cfg) ops) := by
    refine capAcct_run ops _ ?_
    unfold CapAcct Service.init
    simp [pendingSum_nil]
  have hnn : CapNonneg (run (Service.init n cfg) ops) := by
    refine capNonneg_run ops _ ?_
    unfold CapNonneg Service.init
    simpa using hcfg
  have hps := pendingSum_nonneg (run (Service.init n cfg) ops).outstanding
  unfold CapAcct at hacct
  unfold CapNonneg at hnn
  exact ⟨hnn, by omega⟩

/-- Concrete instance of C3: submit then complete on a 10-byte budget. -/
theorem capacity_bounds_invariant_witness :
    0 ≤ (run (Service.init 1 10) [Op.submit "hi" 0, Op.complete 0]).capacityBytes
  ∧ (run (Service.init 1 10) [Op.submit "hi" 0, Op.complete 0]).capacityBytes ≤ 10 :=
  capacity_bounds_invariant 10 1 [Op.submit "hi" 0, Op.complete 0] (by decide)

/-- C4: across any sequence of operations, the request ids issued to accepted
submissions are strictly increasing in issuance order, hence pairwise
distinct and never reused: a Request constructed earlier carries a strictly
smaller id than any Request constructed later. -/
theorem issued_ids_strictly_increasing (cfg : Int) (n : Nat) (ops : List Op) :
    List.Pairwise (· < ·) (issuedIds (run (Service.init n cfg) ops)) := by
  have h : IdInv (run (Service.init n cfg) ops) := by
    refine idInv_run ops _ ?_
    unfold IdInv issuedIds Service.init
    simp
  exact h.2

/-- C9: translateWithCopy returns exactly what translate returns: the same
tracker, the same admission decision, and the same successor state. -/
theorem translateWithCopy_eq_translate :
    ∀ (input : String) (s : ServiceState),
      translateWithCopy input s = translate input s :=
  fun _ _ => rfl

/-- C10: every Request constructed through the public translate entry point
carries the fixed priority nice = 20 and starting line number 0; the
submission interface passes no other value. -/
theorem translate_fixed_nice_and_line (input : String) (s : ServiceState)
    (r : Request)
    (hr : r ∈ (translate input s).2.createdRequests)
    (hnew : r ∉ s.createdRequests) :
    r.nice = 20 ∧ r.lineNumberBegin = 0 := by
  unfold translate at hr
  by_cases hrej : (input.utf8ByteSize : Int) > s.capacityBytes
  · rw [translatePart_rejected_eq input 0 s hrej] at hr
    exact absurd hr hnew
  · by_cases hw : 0 < s.numWorkers
    · rw [translatePart_accept_async input 0 s hrej hw] at hr
      simp only [createdRequests_asyncPath] at hr
      rcases List.mem_append.mp hr with h1 | h1
      · exact absurd h1 hnew
      · simp only [List.mem_singleton] at h1
        subst h1
        exact ⟨rfl, rfl⟩
    · rw [translatePart_accept_sync input 0 s hrej hw] at hr
      simp only [createdRequests_syncPath] at hr
      rcases List.mem_append.mp hr with h1 | h1
      · exact absurd h1 hnew
      · simp only [List.mem_singleton] at h1
        subst h1
        exact ⟨rfl, rfl⟩

/-- Concrete instance of C10: the Request created for the input "hi". -/
theorem translate_fixed_nice_and_line_witness :
    exampleRequest.nice = 20 ∧ exampleRequest.lineNumberBegin = 0 :=
  translate_fixed_nice_and_line "hi" exampleService exampleRequest
    (by decide) (by decide)

/-- C2: acceptance decrements capacityBytes by the input byte length and
registers one completion callback for those bytes; a completion callback
fires at most once, incrementing capacityBytes by exactly the registered
amount and consuming the registration (a second completion of the same id is
a no-op); consequently whenever no registration is outstanding after a run,
capacityBytes has returned to the configured budget. -/
theorem capacity_roundtrip :
    (∀ (input : String) (ln : Int) (s : ServiceState),
       0 < s.numWorkers →
       ¬ (input.utf8ByteSize : Int) > s.capacityBytes →
       (translatePart input ln s).2.capacityBytes
           = s.capacityBytes - (input.utf8ByteSize : Int)
     ∧ (translatePart input ln s).2.outstanding
           = (s.requestId, input.utf8ByteSize) :: s.outstanding)
  ∧ (∀ (s : ServiceState) (rid b : Nat) (rem : List (Nat × Nat)),
       fireCallback rid s.outstanding = (some b, rem) →
       (completeRequest rid s).capacityBytes = s.capacityBytes + (b : Int)
     ∧ (completeRequest rid s).outstanding = rem)
  ∧ (∀ (s : ServiceState) (rid : Nat),
       (∀ p ∈ s.outstanding, p.1 ≠ rid) →
       completeRequest rid s = s)
  ∧ (∀ (cfg : Int) (n : Nat) (ops : List Op),
       (run (Service.init n cfg) ops).outstanding = [] →
       (run (Service.init n cfg) ops).capacityBytes = cfg) := by
  refine ⟨?_, ?_, ?_, ?_⟩
  · intro input ln s hw hacc
    rw [translatePart_accept_async input ln s hacc hw]
    unfold asyncPath produceTo acceptedState prepareRequest
    constructor <;> simp
  · intro s rid b rem hfc
    unfold completeRequest
    rw [hfc]
    exact ⟨rfl, rfl⟩
  · intro s rid h
    unfold completeRequest
    rw [fireCallback_not_mem rid s.outstanding h]
  · intro cfg n ops hout
    have hacct : CapAcct cfg (run (Service.init n cfg) ops) := by
      refine capAcct_run ops _ ?_
      unfold CapAcct Service.init
      simp [pendingSum_nil]
    unfold CapAcct at hacct
    rw [hout, pendingSum_nil] at hacct
    omega

/-- Concrete instance of C2: a 2-byte acceptance, a firing completion, a
no-op completion of an unknown id, and an empty run. -/
theorem capacity_roundtrip_witness :
    ((translatePart "ab" 0 exampleService).2.capacityBytes
        = exampleService.capacityBytes - ("ab".utf8ByteSize : Int)
      ∧ (translatePart "ab" 0 exampleService).2.outstanding
        = (exampleService.requestId, "ab".utf8ByteSize) :: exampleService.outstanding)
  ∧ ((completeRequest 7 exampleServiceBusy).capacityBytes
        = exampleServiceBusy.capacityBytes + ((4 : Nat) : Int)
      ∧ (completeRequest 7 exampleServiceBusy).outstanding = [])
  ∧ completeRequest 9 exampleServiceBusy = exampleServiceBusy
  ∧ (run (Service.init 1 5) []).capacityBytes = 5 :=
  ⟨capacity_roundtrip.1 "ab" 0 exampleService (by decide) (by decide),
   capacity_roundtrip.2.1 exampleServiceBusy 7 4 [] (by decide),
   capacity_roundtrip.2.2.1 exampleServiceBusy 9 (by decide),
   capacity_roundtrip.2.2.2 5 1 [] (by decide)⟩

/-- C5: with 0 workers and an accepted submission, translatePart runs the
preprocessing synchronously, drains the Batcher through the synchronous
translate call before returning (batcher empty, one inference call), spawns
no background task, and the returned tracker is already resolved with
SUCCESS; the refund in the completion callback has also already run. -/
theorem zero_workers_synchronous (input : String) (ln : Int) (s : ServiceState)
    (hw : s.numWorkers = 0) (hb : s.batcher = [])
    (hacc : ¬ (input.utf8ByteSize : Int) > s.capacityBytes) :
    (translatePart input ln s).1.status = StatusCode.SUCCESS
  ∧ (translatePart input ln s).1.future = some Response.completed
  ∧ (translatePart input ln s).2.preprocessCalls = s.preprocessCalls + 1
  ∧ (translatePart input ln s).2.inferenceCalls = s.inferenceCalls + 1
  ∧ (translatePart input ln s).2.batcher = []
  ∧ (translatePart input ln s).2.asyncLaunches = s.asyncLaunches
  ∧ (translatePart input ln s).2.capacityBytes = s.capacityBytes := by
  have hw' : ¬ 0 < s.numWorkers := by omega
  rw [translatePart_accept_sync input ln s hacc hw']
  unfold syncPath drainBatcher acceptedState prepareRequest
  simp only [hb, List.nil_append, List.foldl_cons, List.foldl_nil]
  unfold runBatch completeRequest fireCallback trackerView
  simp [lookupStatus, setTrackerStatus]

/-- Concrete instance of C5: the input "hi" on a fresh zero-worker service. -/
theorem zero_workers_synchronous_witness :
    (translatePart "hi" 0 exampleServiceZero).1.status = StatusCode.SUCCESS
  ∧ (translatePart "hi" 0 exampleServiceZero).1.future = some Response.completed
  ∧ (translatePart "hi" 0 exampleServiceZero).2.preprocessCalls
      = exampleServiceZero.preprocessCalls + 1
  ∧ (translatePart "hi" 0 exampleServiceZero).2.inferenceCalls
      = exampleServiceZero.inferenceCalls + 1
  ∧ (translatePart "hi" 0 exampleServiceZero).2.batcher = []
  ∧ (translatePart "hi" 0 exampleServiceZero).2.asyncLaunches
      = exampleServiceZero.asyncLaunches
  ∧ (translatePart "hi" 0 exampleServiceZero).2.capacityBytes
      = exampleServiceZero.capacityBytes :=
  zero_workers_synchronous "hi" 0 exampleServiceZero
    (by decide) (by decide) (by decide)

/-- C6: stop pushes exactly one poison Batch per worker currently in the
worker list, then clears the worker list; a second stop performs no further
action, with 0 workers stop changes nothing, and destruction invokes stop. -/
theorem stop_behavior (s : ServiceState) :
    (stop s).pcqueue = s.pcqueue ++ List.replicate s.workers Batch.poison
  ∧ (stop s).workers = 0
  ∧ stop (stop s) = stop s
  ∧ (s.workers = 0 → stop s = s)
  ∧ destroy s = stop s := by
  refine ⟨rfl, rfl, ?_, ?_, rfl⟩
  · unfold stop
    simp
  · intro h0
    cases s with
    | mk rid nw cap w bat q out tr cr pc ic al =>
      simp only at h0
      subst h0
      simp [stop]

/-- Concrete instance of C6: stop on a zero-worker service pushes nothing,
joins nothing and changes nothing, and a second stop is a no-op. -/
theorem stop_behavior_witness :
    (stop (Service.init 0 5)).pcqueue
      = (Service.init 0 5).pcqueue
        ++ List.replicate (Service.init 0 5).workers Batch.poison
  ∧ (stop (Service.init 0 5)).workers = 0
  ∧ stop (stop (Service.init 0 5)) = stop (Service.init 0 5)
  ∧ stop (Service.init 0 5) = Service.init 0 5
  ∧ destroy (Service.init 0 5) = stop (Service.init 0 5) :=
  ⟨(stop_behavior (Service.init 0 5)).1,
   (stop_behavior (Service.init 0 5)).2.1,
   (stop_behavior (Service.init 0 5)).2.2.1,
   (stop_behavior (Service.init 0 5)).2.2.2.1 (by decide),
   (stop_behavior (Service.init 0 5)).2.2.2.2⟩

/-- C7: the code discards the std::future returned by std::async, whose
destructor blocks until queueInBackground finishes; as a consequence the
prepareRequest plus produceTo unit has fully run by the time translatePart
returns on the multi-worker path, and one background task was launched.
This theorem records the behaviour that contradicts the fire-and-forget
claim. -/
theorem async_dispatch_completed_on_return (input : String) (ln : Int)
    (s : ServiceState) (hw : 0 < s.numWorkers)
    (hacc : ¬ (input.utf8ByteSize : Int) > s.capacityBytes) :
    (translatePart input ln s).2.preprocessCalls = s.preprocessCalls + 1
  ∧ (translatePart input ln s).2.requestId = s.requestId + 1
  ∧ (translatePart input ln s).2.batcher = []
  ∧ (translatePart input ln s).2.pcqueue
      = s.pcqueue ++ (s.batcher ++
          [({ id := s.requestId, lineNumberBegin := ln, nice := 20,
              input := input, inputBytes := input.utf8ByteSize } :
            Request)]).map Batch.work
  ∧ (translatePart input ln s).2.asyncLaunches = s.asyncLaunches + 1 := by
  rw [translatePart_accept_async input ln s hacc hw]
  unfold asyncPath produceTo acceptedState prepareRequest
  refine ⟨by simp, by simp, by simp, by simp, by simp⟩

/-- Concrete instance of C7: a 5-byte accepted input on a one-worker
service. -/
theorem async_dispatch_completed_on_return_witness :
    (translatePart "hello" 0 (Service.init 1 100)).2.preprocessCalls
      = (Service.init 1 100).preprocessCalls + 1
  ∧ (translatePart "hello" 0 (Service.init 1 100)).2.requestId
      = (Service.init 1 100).requestId + 1
  ∧ (translatePart "hello" 0 (Service.init 1 100)).2.batcher = []
  ∧ (translatePart "hello" 0 (Service.init 1 100)).2.pcqueue
      = (Service.init 1 100).pcqueue ++ ((Service.init 1 100).batcher ++
          [({ id := (Service.init 1 100).requestId, lineNumberBegin := 0,
              nice := 20, input := "hello",
              inputBytes := "hello".utf8ByteSize } : Request)]).map Batch.work
  ∧ (translatePart "hello" 0 (Service.init 1 100)).2.asyncLaunches
      = (Service.init 1 100).asyncLaunches + 1 :=
  async_dispatch_completed_on_return "hello" 0 (Service.init 1 100)
    (by decide) (by decide)

/-- C8: loadVocabularies fails exactly when fewer than two vocabulary file
names are supplied; otherwise it returns a list of the same length as the
input in which two positions hold the same vocabulary object precisely when
they hold the same file name (so identical names share one object and
distinct names hold independently loaded objects), and the number of load
calls equals the number of distinct names (each distinct name is loaded
exactly once). -/
theorem loadVocabularies_dedup_spec :
    (∀ vfiles : List String, loadVocabularies vfiles = none ↔ vfiles.length < 2)
  ∧ (∀ (vfiles : List String) (vs : List Nat) (loads : Nat),
       loadVocabularies vfiles = some (vs, loads) →
       vs.length = vfiles.length
     ∧ (∀ p q, p ∈ vfiles.zip vs → q ∈ vfiles.zip vs → (p.1 = q.1 ↔ p.2 = q.2))
     ∧ loads = vfiles.toFinset.card) := by
  constructor
  · intro vfiles
    unfold loadVocabularies
    by_cases h : vfiles.length < 2
    · simp [h]
    · simp [h]
  · intro vfiles vs loads h
    unfold loadVocabularies at h
    by_cases h2 : vfiles.length < 2
    · rw [if_pos h2] at h
      exact absurd h (by simp)
    · rw [if_neg h2] at h
      simp only [Option.some.injEq, Prod.mk.injEq] at h
      obtain ⟨hvs, hloads⟩ := h
      subst hvs
      subst hloads
      refine ⟨loadVocabAux_length vfiles 0 [], ?_, ?_⟩
      · intro p q hp hq
        have hg : GoodMap 0 [] := ⟨by simp, by simp⟩
        exact loadVocabAux_share vfiles 0 [] hg p q (Or.inl hp) (Or.inl hq)
      · rw [loadVocabAux_loads vfiles 0 []]
        simp

/-- Concrete instance of C8: a singleton list fails; for the list with a
repeated name the first and third positions share an object, the second
differs, and exactly two loads happen. -/
theorem loadVocabularies_dedup_spec_witness :
    (loadVocabularies ["a"] = none ↔ (["a"] : List String).length < 2)
  ∧ (["a", "b", "a"] : List String).length = ([0, 1, 0] : List Nat).length
  ∧ (2 : Nat) = (["a", "b", "a"] : List String).toFinset.card :=
  ⟨loadVocabularies_dedup_spec.1 ["a"],
   ((loadVocabularies_dedup_spec.2 ["a", "b", "a"] [0, 1, 0] 2 (by decide)).1).symm,
   (loadVocabularies_dedup_spec.2 ["a", "b", "a"] [0, 1, 0] 2 (by decide)).2.2⟩

end Bergamot
